import Mathlib

/-!
Verification of the request-coordination core of the soop-chat-translator
browser extension: the protocol adapter (src/api/client.ts), the in-memory
translation cache and message handler (src/background/index.ts), and the
bounded-concurrency queue of the content script (src/unnamed/part_001).

Source code is embedded shallowly: JavaScript strings become Lean strings
(manipulated as character lists), the JS Map becomes an insertion-ordered
association list, JSON.parse becomes an executable parser of the JSON
grammar, and the event-driven queue becomes a step function on an explicit
state record.
-/

set_option autoImplicit false

namespace SoopChat

/-! ### Character constants used throughout the embedding -/

def backtickChar : Char := Char.ofNat 96
def quoteChar : Char := Char.ofNat 34
def backslashChar : Char := Char.ofNat 92
def lbraceChar : Char := Char.ofNat 123
def rbraceChar : Char := Char.ofNat 125
def lbrackChar : Char := Char.ofNat 91
def rbrackChar : Char := Char.ofNat 93

/-! ### Whitespace, trim, and list-level string helpers

JavaScript `String.prototype.trim` and the regex class `\s` accept the ASCII
whitespace characters together with some Unicode space characters; the chat
texts and model responses involved here only ever contain the ASCII ones, so
the embedding uses the ASCII set (space, tab, line feed, vertical tab, form
feed, carriage return).
-/

def jsWsChar (c : Char) : Bool :=
  c = ' ' || c = Char.ofNat 9 || c = Char.ofNat 10 || c = Char.ofNat 11 ||
  c = Char.ofNat 12 || c = Char.ofNat 13

/-- Character list of a string, the representation used by the embedding. -/
def chars (s : String) : List Char := s.data

def ofChars (l : List Char) : String := String.mk l

/-- JS `s.trim()` on the character list representation. -/
def jsTrim (l : List Char) : List Char :=
  ((l.dropWhile jsWsChar).reverse.dropWhile jsWsChar).reverse

/-! ### JSON values and `JSON.parse`

`JSON.parse` is a host builtin; it is embedded as an executable parser of
the JSON grammar (RFC 8259): the six value forms, the four JSON whitespace
characters, string escapes, and the full number grammar (whose lexeme is
kept verbatim, since no claim computes with numeric values; only its
zero-ness matters, for JS truthiness).  Duplicate object keys keep the last
binding, as in JS.  Recursion is by fuel, structurally on `Nat`, so that
the kernel can evaluate concrete inputs.
-/

inductive Json where
  | null : Json
  | bool (b : Bool) : Json
  | num (lexeme : String) : Json
  | str (s : String) : Json
  | arr (elems : List Json) : Json
  | obj (members : List (String × Json)) : Json

/-- JSON whitespace: space, tab, line feed, carriage return. -/
def jsonWsChar (c : Char) : Bool :=
  c = ' ' || c = Char.ofNat 9 || c = Char.ofNat 10 || c = Char.ofNat 13

def skipWs (l : List Char) : List Char := l.dropWhile jsonWsChar

def hexVal (c : Char) : Option Nat :=
  if '0' ≤ c ∧ c ≤ '9' then some (c.toNat - 48)
  else if 'a' ≤ c ∧ c ≤ 'f' then some (c.toNat - 87)
  else if 'A' ≤ c ∧ c ≤ 'F' then some (c.toNat - 55)
  else none

/-- One escape sequence after a backslash inside a JSON string literal. -/
def parseEscape : List Char → Option (Char × List Char)
  | e :: rest =>
    if e = quoteChar then some (quoteChar, rest)
    else if e = backslashChar then some (backslashChar, rest)
    else if e = '/' then some ('/', rest)
    else if e = 'b' then some (Char.ofNat 8, rest)
    else if e = 'f' then some (Char.ofNat 12, rest)
    else if e = 'n' then some (Char.ofNat 10, rest)
    else if e = 'r' then some (Char.ofNat 13, rest)
    else if e = 't' then some (Char.ofNat 9, rest)
    else if e = 'u' then
      match rest with
      | h1 :: h2 :: h3 :: h4 :: rest4 =>
        match hexVal h1, hexVal h2, hexVal h3, hexVal h4 with
        | some a, some b, some c, some d =>
          some (Char.ofNat (((a * 16 + b) * 16 + c) * 16 + d), rest4)
        | _, _, _, _ => none
      | _ => none
    else none
  | [] => none

/-- Body of a JSON string literal, after the opening quote; stops at the
closing quote.  Unescaped control characters make the parse fail. -/
def parseStringBody (fuel : Nat) (l : List Char) : Option (List Char × List Char) :=
  match fuel, l with
  | _, [] => none
  | 0, _ => none
  | Nat.succ fuel, c :: rest =>
    if c = quoteChar then some ([], rest)
    else if c = backslashChar then
      match parseEscape rest with
      | some (e, rest2) =>
        match parseStringBody fuel rest2 with
        | some (s, r) => some (e :: s, r)
        | none => none
      | none => none
    else if c.toNat < 32 then none
    else
      match parseStringBody fuel rest with
      | some (s, r) => some (c :: s, r)
      | none => none

def isDigit (c : Char) : Bool := '0' ≤ c && c ≤ '9'

/-- JSON number grammar after the optional minus sign:
`(0 | [1-9][0-9]*) (.[0-9]+)? ([eE][+-]?[0-9]+)?`; returns the lexeme. -/
def parseNumTail (l : List Char) : Option (List Char × List Char) :=
  match l with
  | [] => none
  | c :: rest =>
    if c = '0' then some ([c], rest)
    else if isDigit c then
      some (c :: rest.takeWhile isDigit, rest.dropWhile isDigit)
    else none

def parseFrac (l : List Char) : Option (List Char × List Char) :=
  match l with
  | '.' :: rest =>
    match rest.takeWhile isDigit with
    | [] => none
    | ds => some ('.' :: ds, rest.dropWhile isDigit)
  | _ => some ([], l)

def parseExpPart (l : List Char) : Option (List Char × List Char) :=
  match l with
  | e :: rest =>
    if e = 'e' ∨ e = 'E' then
      let signAndRest :=
        match rest with
        | s :: r2 => if s = '+' ∨ s = '-' then ([s], r2) else (([] : List Char), rest)
        | [] => ([], rest)
      match signAndRest.2.takeWhile isDigit with
      | [] => none
      | ds => some (e :: signAndRest.1 ++ ds, signAndRest.2.dropWhile isDigit)
    else some ([], l)
  | [] => some ([], l)

def parseNumber (l : List Char) : Option (List Char × List Char) :=
  let (sign, l1) :=
    match l with
    | '-' :: rest => (['-'], rest)
    | _ => (([] : List Char), l)
  match parseNumTail l1 with
  | none => none
  | some (intPart, l2) =>
    match parseFrac l2 with
    | none => none
    | some (fracPart, l3) =>
      match parseExpPart l3 with
      | none => none
      | some (expPart, l4) => some (sign ++ intPart ++ fracPart ++ expPart, l4)

/-- Parsing mode: a value, the members of an object, or the elements of an
array (with the members or elements parsed so far). -/
inductive PMode where
  | val : PMode
  | membersFirst : PMode
  | membersNext (acc : List (String × Json)) : PMode
  | elemsFirst : PMode
  | elemsNext (acc : List Json) : PMode

/-- Core JSON parser.  Every recursive call decreases the fuel, so the
definition is structural on `Nat` and kernel-evaluable. -/
def parseCore : Nat → PMode → List Char → Option (Json × List Char)
  | 0, _, _ => none
  | Nat.succ fuel, PMode.val, l =>
    let l := skipWs l
    match l with
    | [] => none
    | c :: rest =>
      if c = quoteChar then
        match parseStringBody (rest.length + 1) rest with
        | some (s, r) => some (Json.str (ofChars s), r)
        | none => none
      else if c = lbraceChar then parseCore fuel PMode.membersFirst rest
      else if c = lbrackChar then parseCore fuel PMode.elemsFirst rest
      else
        match l with
        | 't' :: 'r' :: 'u' :: 'e' :: r => some (Json.bool true, r)
        | 'f' :: 'a' :: 'l' :: 's' :: 'e' :: r => some (Json.bool false, r)
        | 'n' :: 'u' :: 'l' :: 'l' :: r => some (Json.null, r)
        | _ =>
          match parseNumber l with
          | some (lex, r) => some (Json.num (ofChars lex), r)
          | none => none
  | Nat.succ fuel, PMode.membersFirst, l =>
    let l := skipWs l
    match l with
    | c :: rest =>
      if c = rbraceChar then some (Json.obj [], rest)
      else parseCore fuel (PMode.membersNext []) l
    | [] => none
  | Nat.succ fuel, PMode.membersNext acc, l =>
    let l := skipWs l
    match l with
    | c :: rest =>
      if c = quoteChar then
        match parseStringBody (rest.length + 1) rest with
        | some (k, r1) =>
          match skipWs r1 with
          | ':' :: r2 =>
            match parseCore fuel PMode.val r2 with
            | some (v, r3) =>
              let acc := acc ++ [(ofChars k, v)]
              match skipWs r3 with
              | ',' :: r4 => parseCore fuel (PMode.membersNext acc) r4
              | d :: r4 =>
                if d = rbraceChar then some (Json.obj acc, r4) else none
              | [] => none
            | none => none
          | _ => none
        | none => none
      else none
    | [] => none
  | Nat.succ fuel, PMode.elemsFirst, l =>
    let l := skipWs l
    match l with
    | c :: rest =>
      if c = rbrackChar then some (Json.arr [], rest)
      else parseCore fuel (PMode.elemsNext []) l
    | [] => none
  | Nat.succ fuel, PMode.elemsNext acc, l =>
    match parseCore fuel PMode.val l with
    | some (v, r1) =>
      let acc := acc ++ [v]
      match skipWs r1 with
      | ',' :: r2 => parseCore fuel (PMode.elemsNext acc) r2
      | d :: r2 => if d = rbrackChar then some (Json.arr acc, r2) else none
      | [] => none
    | none => none

/-- `JSON.parse` on a character list: parse one value, then require only
whitespace to remain.  The fuel `2 * length + 8` dominates the depth of the
parse call tree, because every recursive call of `parseCore` either consumes
at least one character before the next or alternates once with one that
does. -/
def jsonParse (l : List Char) : Option Json :=
  match parseCore (2 * l.length + 8) PMode.val l with
  | some (j, rest) => if skipWs rest = [] then some j else none
  | none => none

/-- Property lookup `parsed.translation`: only objects have data
properties; duplicate keys keep the last binding, as `JSON.parse` does. -/
def jGet (j : Json) (key : String) : Option Json :=
  match j with
  | Json.obj members => (members.reverse.lookup key)
  | _ => none

/-- JS truthiness of a JSON value: `false`, `null`, the empty string and
numeric zero are falsy; objects and arrays are always truthy. -/
def jsTruthy (j : Json) : Bool :=
  match j with
  | Json.null => false
  | Json.bool b => b
  | Json.str s => s ≠ ""
  | Json.num lex => (chars lex).any fun c => isDigit c && c ≠ '0'
  | Json.arr _ => true
  | Json.obj _ => true

/-! ### Protocol Adapter — `TranslatorClient.translate` (src/api/client.ts)

The HTTP exchange is abstracted to the response the `fetch` call produced:
its status, status text, and the already-decoded `choices[i].message.content`
strings (absent fields become `none`).  `response.ok` is the WHATWG fetch
definition: status in the range 200..299.  Everything after the status check
is a verbatim embedding of lines 77-101 of client.ts.
-/

def fence : List Char := [backtickChar, backtickChar, backtickChar]

def jsonFence : List Char := fence ++ [ 'j', 's', 'o', 'n' ]

/-- The second `replace` of both branches, regex `\s*` ++ fence ++ `$`:
remove a trailing fence together with the whitespace before it; no change
when the content does not end with a fence. -/
def stripTrailingFence (l : List Char) : List Char :=
  if fence.reverse.isPrefixOf l.reverse then
    ((l.reverse.drop 3).dropWhile jsWsChar).reverse
  else l

/-- Lines 84-89 of client.ts: strip a leading fence bearing exactly the
literal tag `json` (first branch) or a bare leading fence (second branch),
each followed by stripping a trailing fence; the regexes anchor at the
start, drop the matched delimiter and the whitespace after it. -/
def stripFences (content : List Char) : List Char :=
  if jsonFence.isPrefixOf content then
    stripTrailingFence ((content.drop 7).dropWhile jsWsChar)
  else if fence.isPrefixOf content then
    stripTrailingFence ((content.drop 3).dropWhile jsWsChar)
  else content

/-- Lines 82-100 of client.ts: strip fences, try `JSON.parse`; on success
return the `translation` property when it is truthy; in every other case
(parse failure, absent property, falsy property) fall through to
`return content`, which at that point holds the fence-stripped string. -/
def contentResult (content : List Char) : Json :=
  match jsonParse (stripFences content) with
  | some parsed =>
    match jGet parsed "translation" with
    | some v =>
      if jsTruthy v then v else Json.str (ofChars (stripFences content))
    | none => Json.str (ofChars (stripFences content))
  | none => Json.str (ofChars (stripFences content))

structure ApiResponse where
  status : Nat
  statusText : String
  choices : List (Option String)

/-- WHATWG fetch `Response.ok`: status in the inclusive range 200..299. -/
def respOk (status : Nat) : Bool := 200 ≤ status && status ≤ 299

/-- `TranslatorClient.translate`, from the produced HTTP response onward
(lines 73-101 of client.ts): non-ok status throws the transport error,
missing or empty trimmed content throws the empty-response error, and the
content otherwise normalizes to a successful result. -/
def translate (resp : ApiResponse) : Except String Json :=
  if respOk resp.status then
    match (resp.choices.head?.bind id).map (fun s => jsTrim (chars s)) with
    | none => Except.error "Empty response from API"
    | some content =>
      if content = [] then Except.error "Empty response from API"
      else Except.ok (contentResult content)
  else
    Except.error ("API " ++ toString resp.status ++ ": " ++ resp.statusText)

/-- Modelled from the spec for comparison (claim C6): stripping of "a
leading/trailing fenced-code delimiter (with or without a language tag)" —
after a leading fence the language tag, whatever it is, is removed together
with the whitespace separating it from the content; the trailing delimiter
is removed as in the source. -/
def specStripFences (content : List Char) : List Char :=
  if fence.isPrefixOf content then
    stripTrailingFence
      (((content.drop 3).dropWhile (fun c => !jsWsChar c)).dropWhile jsWsChar)
  else content

/-- Modelled from the spec for comparison (claim C6): the normalization
pipeline with the spec wording of fence stripping in place of the code one. -/
def specContentResult (content : List Char) : Json :=
  match jsonParse (specStripFences content) with
  | some parsed =>
    match jGet parsed "translation" with
    | some v =>
      if jsTruthy v then v else Json.str (ofChars (specStripFences content))
    | none => Json.str (ofChars (specStripFences content))
  | none => Json.str (ofChars (specStripFences content))

/-! ### Translation cache (src/background/index.ts, lines 23-46)

`translationCache` is a JS `Map`, which iterates in insertion order and
keeps the position of a key that is re-`set`.  It is embedded as an
insertion-ordered association list with unique keys: the head is the oldest
entry, the last element the newest.  `Map.get` is `List.lookup`,
`Map.delete` removes the binding of the key, and `Map.set` updates an
existing binding in place or else appends at the end.  The source fixes the
capacity as `MAX_CACHE_SIZE = 500`; the eviction test takes it as a
parameter so that the behavior is visible at small capacities.
-/

abbrev Cache := List (String × String)

def mapDelete (k : String) (c : Cache) : Cache :=
  c.filter fun p => p.1 ≠ k

def mapSet (k v : String) (c : Cache) : Cache :=
  if (c.lookup k).isSome then
    c.map fun p => if p.1 = k then (k, v) else p
  else c ++ [(k, v)]

/-- Lines 29-37: `cacheGet` returns the value and, on a hit, touches the
entry by deleting and re-inserting it (move to most-recently-used). -/
def cacheGet (k : String) (c : Cache) : Option String × Cache :=
  match c.lookup k with
  | some v => (some v, mapSet k v (mapDelete k c))
  | none => (none, c)

/-- Lines 39-46 with the capacity as a parameter: when the size has reached
the capacity, delete the first (oldest) entry, then `Map.set` the key. -/
def cacheSetCap (cap : Nat) (k v : String) (c : Cache) : Cache :=
  let c1 :=
    if cap ≤ c.length then
      match c.head? with
      | some p => mapDelete p.1 c
      | none => c
    else c
  mapSet k v c1

def MAX_CACHE_SIZE : Nat := 500

def cacheSet (k v : String) (c : Cache) : Cache :=
  cacheSetCap MAX_CACHE_SIZE k v c

/-- Modelled from the spec for comparison (claims C3 and C4): a `set`
"always treats the entry as freshly most-recently-used" (remove any
existing binding first), and "when at capacity evicts exactly one entry —
the current least-recently-used — before inserting the new one". -/
def specLruSet (cap : Nat) (k v : String) (c : Cache) : Cache :=
  let c1 := mapDelete k c
  let c2 := if cap ≤ c1.length then c1.tail else c1
  c2 ++ [(k, v)]

/-! ### Background message handler (src/background/index.ts, lines 49-139)

The chrome messaging plumbing, `chrome.storage` settings read and
`chrome.i18n.detectLanguage` callback are external; the handler is embedded
as a function of the settings, the submitted text, the detection outcome
(`none` when the callback yields nothing usable) and the outcome the
adapter would produce if called.  It returns the `sendResponse` payload,
the cache after the interaction, and whether the adapter was invoked.
-/

structure TranslatorSettings where
  apiBase : String
  model : String
  apiKey : String
  sourceLang : String
  targetLang : String
  enabled : Bool
  maxConcurrentRequests : Int

/-- Lines 59-69: map a user-facing language name to the ISO code that
`chrome.i18n.detectLanguage` reports; unknown names map to the empty
string. -/
def getCodeForLangName (langName : String) : String :=
  if langName = "Korean" then "ko"
  else if langName = "English" then "en"
  else if langName = "Japanese" then "ja"
  else if langName = "Chinese (Simplified)" then "zh"
  else if langName = "Spanish" then "es"
  else if langName = "French" then "fr"
  else ""

structure LanguageDetectionResult where
  isReliable : Bool
  languages : List String

structure TranslateResponse where
  success : Bool
  result : Option String
  error : Option String
  cached : Option Bool
  skipped : Option Bool
deriving DecidableEq

inductive AdapterBehavior where
  | ok (result : String)
  | err (message : String)
deriving DecidableEq

structure HandlerResult where
  response : TranslateResponse
  cache : Cache
  adapterCalled : Bool
deriving DecidableEq

/-- Lines 98-114: the skip decision — detection runs only for a known
target language (nonempty ISO code), and the text is skipped when the
detection result exists, is reliable, reports at least one language, and
its dominant language equals the target code or has it as a prefix. -/
def skipDetected (settings : TranslatorSettings)
    (detected : Option LanguageDetectionResult) : Bool :=
  if getCodeForLangName settings.targetLang = "" then false
  else
    match detected with
    | some d =>
      match d.languages with
      | topLang :: _ =>
        d.isReliable &&
          (topLang = getCodeForLangName settings.targetLang ||
            (chars (getCodeForLangName settings.targetLang)).isPrefixOf
              (chars topLang))
      | [] => false
    | none => false

/-- Lines 80-135: disabled check, cache key, cache hit, detection skip,
adapter call with cache store on success, catch branch on failure. -/
def handleTranslate (settings : TranslatorSettings) (text : String)
    (detected : Option LanguageDetectionResult) (adapter : AdapterBehavior)
    (cache : Cache) : HandlerResult :=
  if settings.enabled then
    let cacheKey := settings.targetLang ++ "::" ++ text
    match cacheGet cacheKey cache with
    | (some cachedVal, cache1) =>
      ⟨{ success := true, result := some cachedVal, error := none,
         cached := some true, skipped := none }, cache1, false⟩
    | (none, cache1) =>
      if skipDetected settings detected then
        ⟨{ success := true, result := some text, error := none,
           cached := some false, skipped := some true },
         cacheSet cacheKey text cache1, false⟩
      else
        match adapter with
        | AdapterBehavior.ok result =>
          ⟨{ success := true, result := some result, error := none,
             cached := some false, skipped := none },
           cacheSet cacheKey result cache1, true⟩
        | AdapterBehavior.err msg =>
          ⟨{ success := false, result := none, error := some msg,
             cached := none, skipped := none }, cache1, true⟩
  else
    ⟨{ success := false, result := none, error := some "Translation is disabled",
       cached := none, skipped := none }, cache, false⟩

/-! ### Request Coordinator (src/unnamed/part_001, lines 19-128)

The queue state of the content script: the pending task list
`translationQueue` (tasks stand for their jobs, numbered), the counter
`inFlightCount` (a JS number, hence `Int`), and the dynamic limit
`currentMaxConcurrent`.  Two ghost fields record what the external world
observes: `dispatched`, the order in which tasks were started (each task
immediately issues its adapter request), and `results`, the finished jobs
with their success flag (the promise resolutions).  `processQueue` is the
admission loop of lines 40-49; a finishing task runs the `finally` block of
lines 121-124 (decrement, then re-drain) after recording its outcome, which
the `try`/`catch` of lines 113-120 makes identical for success and
failure.  The loop is written with explicit fuel (one round per queued
task) to stay kernel-evaluable.
-/

structure CoordState where
  translationQueue : List Nat
  inFlightCount : Int
  currentMaxConcurrent : Int
  dispatched : List Nat
  results : List (Nat × Bool)
deriving DecidableEq

def drainLoop : Nat → CoordState → CoordState
  | 0, s => s
  | Nat.succ fuel, s =>
    match s.translationQueue with
    | [] => s
    | j :: rest =>
      if s.inFlightCount < s.currentMaxConcurrent then
        drainLoop fuel
          { s with translationQueue := rest,
                   inFlightCount := s.inFlightCount + 1,
                   dispatched := s.dispatched ++ [j] }
      else s

/-- Lines 40-49: while the queue is nonempty and there is capacity, shift
the head task, increment the counter, start the task. -/
def processQueue (s : CoordState) : CoordState :=
  drainLoop s.translationQueue.length s

/-- Lines 51-54: push at the tail, then drain. -/
def enqueue (j : Nat) (s : CoordState) : CoordState :=
  processQueue { s with translationQueue := s.translationQueue ++ [j] }

/-- Lines 111-128: a dispatched task settles (with success or failure);
the `finally` block decrements the counter and re-drains; the outcome is
recorded as the resolution the submitter observes. -/
def finishJob (j : Nat) (success : Bool) (s : CoordState) : CoordState :=
  processQueue
    { s with inFlightCount := s.inFlightCount - 1,
             results := s.results ++ [(j, success)] }

inductive QEvent where
  | submit (j : Nat)
  | finish (j : Nat) (success : Bool)
deriving DecidableEq

def qStep (s : CoordState) (e : QEvent) : CoordState :=
  match e with
  | QEvent.submit j => enqueue j s
  | QEvent.finish j success => finishJob j success s

def runTrace (s : CoordState) (es : List QEvent) : CoordState :=
  es.foldl qStep s

def initState (limit : Int) : CoordState :=
  { translationQueue := [], inFlightCount := 0, currentMaxConcurrent := limit,
    dispatched := [], results := [] }

/-- A trace is valid when every finish event settles a task that was
actually dispatched and not every dispatched task has already settled:
completions are produced only by running tasks. -/
def validFrom : CoordState → List QEvent → Bool
  | _, [] => true
  | s, e :: es =>
    (match e with
     | QEvent.submit _ => true
     | QEvent.finish j _ =>
       decide (j ∈ s.dispatched) && decide (s.results.length < s.dispatched.length)) &&
    validFrom (qStep s e) es

def submits : List QEvent → List Nat
  | [] => []
  | QEvent.submit j :: es => j :: submits es
  | QEvent.finish _ _ :: es => submits es

/-- Submission with instantaneous adapter resolution: each submitted task
settles before the next submission happens. -/
def instantTrace : List Nat → List QEvent
  | [] => []
  | j :: js => QEvent.submit j :: QEvent.finish j true :: instantTrace js

def fiveSubmits : List QEvent :=
  [QEvent.submit 1, QEvent.submit 2, QEvent.submit 3, QEvent.submit 4,
   QEvent.submit 5]

/-- Coordinator state invariant: the counter equals the number of
dispatched-but-unsettled tasks and stays within the limit. -/
def Inv (s : CoordState) : Prop :=
  s.inFlightCount = (s.dispatched.length : Int) - (s.results.length : Int) ∧
  s.results.length ≤ s.dispatched.length ∧
  s.inFlightCount ≤ s.currentMaxConcurrent

/-! ## Supporting lemmas about the cache -/

theorem lookup_mapDelete_self (k : String) (c : Cache) :
    (mapDelete k c).lookup k = none := by
  induction c with
  | nil => rfl
  | cons p rest ih =>
    rcases p with ⟨a, b⟩
    by_cases h : a = k
    · simpa [mapDelete, List.filter_cons, h] using ih
    · have hk : (k == a) = false := beq_eq_false_iff_ne.mpr (Ne.symm h)
      simp only [mapDelete, List.filter_cons] at ih ⊢
      have hd : decide ((a, b).1 ≠ k) = true := by simp [h]
      rw [if_pos hd]
      simp only [List.lookup, hk]
      exact ih

theorem lookup_map_update (k v : String) (c : Cache)
    (h : (c.lookup k).isSome = true) :
    (c.map fun p => if p.1 = k then (k, v) else p).lookup k = some v := by
  induction c with
  | nil => simp [List.lookup] at h
  | cons p rest ih =>
    rcases p with ⟨a, b⟩
    by_cases hp : a = k
    · have hhead : (if (a, b).1 = k then (k, v) else (a, b)) = (k, v) := if_pos hp
      rw [List.map_cons, hhead]
      simp [List.lookup]
    · have hk : (k == a) = false := beq_eq_false_iff_ne.mpr (Ne.symm hp)
      have hhead : (if (a, b).1 = k then (k, v) else (a, b)) = (a, b) := if_neg hp
      simp only [List.lookup, hk] at h
      rw [List.map_cons, hhead]
      simpa [List.lookup, hk] using ih h

theorem lookup_append_self (k v : String) (c : Cache)
    (h : c.lookup k = none) :
    (c ++ [(k, v)]).lookup k = some v := by
  induction c with
  | nil => simp [List.lookup]
  | cons p rest ih =>
    rcases p with ⟨a, b⟩
    rcases hk : (k == a) with _ | _
    · simp only [List.cons_append, List.lookup, hk]
      simp only [List.lookup, hk] at h
      exact ih h
    · simp [List.lookup, hk] at h

theorem lookup_mapSet_self (k v : String) (c : Cache) :
    (mapSet k v c).lookup k = some v := by
  unfold mapSet
  by_cases h : (c.lookup k).isSome = true
  · rw [if_pos h]
    exact lookup_map_update k v c h
  · rw [if_neg h]
    exact lookup_append_self k v c (Option.not_isSome_iff_eq_none.mp h)

theorem lookup_cacheSetCap_self (cap : Nat) (k v : String) (c : Cache) :
    (cacheSetCap cap k v c).lookup k = some v := by
  unfold cacheSetCap
  apply lookup_mapSet_self

theorem lookup_cons_none (k : String) (p : String × String) (rest : Cache)
    (h : ((p :: rest : Cache).lookup k) = none) : rest.lookup k = none := by
  rcases p with ⟨a, b⟩
  rcases hk : (k == a) with _ | _
  · simpa [List.lookup, hk] using h
  · simp [List.lookup, hk] at h

theorem mapDelete_head_of_nodup (p : String × String) (rest : Cache)
    (h : ((p :: rest).map Prod.fst).Nodup) : mapDelete p.1 (p :: rest) = rest := by
  simp only [List.map_cons, List.nodup_cons] at h
  simp only [mapDelete, List.filter_cons]
  have hd : decide (p.1 ≠ p.1) = false := by simp
  rw [if_neg (by simp [hd])]
  apply List.filter_eq_self.mpr
  intro q hq
  have : q.1 ∈ rest.map Prod.fst := List.mem_map_of_mem Prod.fst hq
  have hne : q.1 ≠ p.1 := fun e => h.1 (e ▸ this)
  simpa using hne

theorem mapSet_append_of_absent (k v : String) (c : Cache)
    (h : c.lookup k = none) : mapSet k v c = c ++ [(k, v)] := by
  unfold mapSet
  rw [h]
  simp

theorem lookup_eq_none_of_not_mem (k : String) (c : Cache)
    (h : k ∉ c.map Prod.fst) : c.lookup k = none := by
  induction c with
  | nil => rfl
  | cons p rest ih =>
    rcases p with ⟨a, b⟩
    simp only [List.map_cons, List.mem_cons] at h
    push_neg at h
    have hk : (k == a) = false := beq_eq_false_iff_ne.mpr h.1
    simp only [List.lookup, hk]
    exact ih h.2

/-- Claim C3 counterexample: with capacity 2, the operation sequence
`set(a,1); set(b,2); set(b,3)` makes the third `set` — performed at
capacity on the already-present key `b` — evict `a` and shrink the cache
to a single entry, although under the least-recently-touched discipline
the claim states (embodied by `specLruSet`, under which the `set` of `b`
is a touch and no new entry is inserted) nothing is evicted and `a`
survives. -/
theorem cache_lru_counterexample :
    cacheSetCap 2 "b" "3" (cacheSetCap 2 "b" "2" (cacheSetCap 2 "a" "1" [])) =
      [("b", "3")] ∧
    specLruSet 2 "b" "3" (specLruSet 2 "b" "2" (specLruSet 2 "a" "1" [])) =
      [("a", "1"), ("b", "3")] ∧
    cacheSetCap 2 "b" "3" (cacheSetCap 2 "b" "2" (cacheSetCap 2 "a" "1" [])) ≠
      specLruSet 2 "b" "3" (specLruSet 2 "b" "2" (specLruSet 2 "a" "1" [])) := by
  refine ⟨by decide, by decide, by decide⟩

/-- Claim C3 amended: the cache is size-bounded; `get` on a hit promotes
the entry to most-recently-used; a `set` of a key not yet present,
performed at capacity, evicts exactly one entry — the head of the
insertion-or-last-get order, i.e. the oldest entry not refreshed by a
`get` — before appending the new entry at the most-recently-used end.  A
`set` on an existing key is not a get-touch: below capacity it updates the
value in place; at capacity it first evicts the oldest entry, so when the
written key is itself the oldest it is re-inserted at the
most-recently-used end with the size unchanged, and otherwise the oldest
entry is lost, the cache shrinks by one, and the written key is updated in
place.  The two example sequences of the claim evaluate as the claim
states. -/
theorem cache_lru_amended :
    (∀ (cap : Nat) (k v : String) (p : String × String) (rest : Cache),
       (((p :: rest : Cache)).map Prod.fst).Nodup →
       ((p :: rest : Cache)).lookup k = none →
       cap ≤ (p :: rest : Cache).length →
       cacheSetCap cap k v (p :: rest) = rest ++ [(k, v)]) ∧
    (∀ (k v : String) (c : Cache), c.lookup k = some v →
       cacheGet k c = (some v, mapDelete k c ++ [(k, v)])) ∧
    (∀ (cap : Nat) (v : String) (p : String × String) (rest : Cache),
       (((p :: rest : Cache)).map Prod.fst).Nodup →
       cap ≤ (p :: rest : Cache).length →
       cacheSetCap cap p.1 v (p :: rest) = rest ++ [(p.1, v)]) ∧
    (∀ (cap : Nat) (k v w : String) (p : String × String) (rest : Cache),
       (((p :: rest : Cache)).map Prod.fst).Nodup →
       p.1 ≠ k → rest.lookup k = some w →
       cap ≤ (p :: rest : Cache).length →
       cacheSetCap cap k v (p :: rest) =
         rest.map (fun q => if q.1 = k then (k, v) else q)) ∧
    cacheSetCap 2 "c" "3" (cacheSetCap 2 "b" "2" (cacheSetCap 2 "a" "1" [])) =
      [("b", "2"), ("c", "3")] ∧
    cacheSetCap 2 "c" "3"
        (cacheGet "a" (cacheSetCap 2 "b" "2" (cacheSetCap 2 "a" "1" []))).2 =
      [("a", "1"), ("c", "3")] := by
  refine ⟨?new, ?touch, ?oldkey, ?otherkey, by decide, by decide⟩
  · intro cap k v p rest hnodup hmiss hcap
    unfold cacheSetCap
    simp only [if_pos hcap, List.head?]
    rw [mapDelete_head_of_nodup p rest hnodup]
    exact mapSet_append_of_absent k v rest (lookup_cons_none k p rest hmiss)
  · intro k v c hhit
    unfold cacheGet
    rw [hhit]
    show (some v, mapSet k v (mapDelete k c)) = (some v, mapDelete k c ++ [(k, v)])
    rw [mapSet_append_of_absent k v (mapDelete k c) (lookup_mapDelete_self k c)]
  · intro cap v p rest hnodup hcap
    unfold cacheSetCap
    simp only [if_pos hcap, List.head?]
    rw [mapDelete_head_of_nodup p rest hnodup]
    refine mapSet_append_of_absent p.1 v rest (lookup_eq_none_of_not_mem p.1 rest ?_)
    simp only [List.map_cons, List.nodup_cons] at hnodup
    exact hnodup.1
  · intro cap k v w p rest hnodup hne hlook hcap
    unfold cacheSetCap
    simp only [if_pos hcap, List.head?]
    rw [mapDelete_head_of_nodup p rest hnodup]
    unfold mapSet
    rw [hlook]
    simp

/-- Claim C3 amended, witnessed: the fresh-insert conjunct at capacity 1 on
the singleton cache `[(a,1)]` with new key `b`, the promotion conjunct on a
hit of `a`, the at-capacity set of the oldest key `a` (re-inserted at the
most-recently-used end, size unchanged), and the at-capacity set of the
newer key `b` (oldest entry `a` evicted, `b` updated in place). -/
theorem cache_lru_amended_witness :
    ((([("a", "1")] : Cache)).map Prod.fst).Nodup ∧
    (([("a", "1")] : Cache)).lookup "b" = none ∧
    1 ≤ (([("a", "1")] : Cache)).length ∧
    cacheSetCap 1 "b" "2" [("a", "1")] = [("b", "2")] ∧
    (([("a", "1"), ("b", "2")] : Cache)).lookup "a" = some "1" ∧
    cacheGet "a" [("a", "1"), ("b", "2")] =
      (some "1", mapDelete "a" [("a", "1"), ("b", "2")] ++ [("a", "1")]) ∧
    cacheSetCap 2 "a" "9" [("a", "1"), ("b", "2")] = [("b", "2"), ("a", "9")] ∧
    (([("b", "2")] : Cache)).lookup "b" = some "2" ∧
    cacheSetCap 2 "b" "3" [("a", "1"), ("b", "2")] =
      ([("b", "2")] : Cache).map (fun q => if q.1 = "b" then ("b", "3") else q) := by
  refine ⟨by decide, by decide, by decide, ?_, by decide, ?_, ?_, by decide, ?_⟩
  · exact cache_lru_amended.1 1 "b" "2" ("a", "1") [] (by decide) (by decide)
      (by decide)
  · exact cache_lru_amended.2.1 "a" "1" [("a", "1"), ("b", "2")] (by decide)
  · exact cache_lru_amended.2.2.1 2 "9" ("a", "1") [("b", "2")] (by decide)
      (by decide)
  · exact cache_lru_amended.2.2.2.1 2 "b" "3" "2" ("a", "1") [("b", "2")]
      (by decide) (by decide) (by decide) (by decide)

/-- Claim C4 counterexample: below capacity, `set` on the existing key `a`
of `[(a,1),(b,2)]` updates in place: the cache order stays `a` before `b`,
so `a` is still the oldest entry — the next two fresh `set`s at capacity 3
evict `a` while the never-again-touched `b` survives, contradicting that
`a` became the most-recently-used (last-to-be-evicted) entry; the
discipline the claim states (`specLruSet`) would instead move `a` to the
most-recently-used end. -/
theorem cache_set_mru_counterexample :
    cacheSetCap 3 "a" "3" [("a", "1"), ("b", "2")] = [("a", "3"), ("b", "2")] ∧
    cacheSetCap 3 "d" "5"
        (cacheSetCap 3 "c" "4" (cacheSetCap 3 "a" "3" [("a", "1"), ("b", "2")])) =
      [("b", "2"), ("c", "4"), ("d", "5")] ∧
    specLruSet 3 "a" "3" [("a", "1"), ("b", "2")] = [("b", "2"), ("a", "3")] ∧
    cacheSetCap 3 "a" "3" [("a", "1"), ("b", "2")] ≠
      specLruSet 3 "a" "3" [("a", "1"), ("b", "2")] := by
  refine ⟨by decide, by decide, by decide, by decide⟩

/-- Claim C4 amended: a `set` on a key already present, performed below
capacity, updates the entry value in place and leaves the key order — in
particular the position of the written key — unchanged; the entry is not
promoted to most-recently-used.  (At capacity the oldest entry is evicted
first, which re-inserts the key at the end only when the key itself was
the oldest.) -/
theorem cache_set_in_place_amended (cap : Nat) (k v : String) (c : Cache)
    (hpresent : (c.lookup k).isSome = true) (hroom : c.length < cap) :
    cacheSetCap cap k v c = c.map (fun p => if p.1 = k then (k, v) else p) ∧
    (cacheSetCap cap k v c).map Prod.fst = c.map Prod.fst := by
  have hstep : cacheSetCap cap k v c = mapSet k v c := by
    unfold cacheSetCap
    rw [if_neg (by omega)]
  have hmap : mapSet k v c = c.map (fun p => if p.1 = k then (k, v) else p) := by
    unfold mapSet
    rw [if_pos hpresent]
  refine ⟨hstep.trans hmap, ?_⟩
  rw [hstep.trans hmap, List.map_map]
  apply List.map_congr_left
  intro p _
  by_cases hp : p.1 = k
  · simp [hp]
  · simp [hp]

/-- Claim C4 amended, witnessed at the counterexample input. -/
theorem cache_set_in_place_amended_witness :
    ((([("a", "1"), ("b", "2")] : Cache)).lookup "a").isSome = true ∧
    (([("a", "1"), ("b", "2")] : Cache)).length < MAX_CACHE_SIZE ∧
    (cacheSetCap MAX_CACHE_SIZE "a" "3" [("a", "1"), ("b", "2")] =
       ([("a", "1"), ("b", "2")] : Cache).map
         (fun p => if p.1 = "a" then ("a", "3") else p) ∧
     (cacheSetCap MAX_CACHE_SIZE "a" "3" [("a", "1"), ("b", "2")]).map Prod.fst =
       (([("a", "1"), ("b", "2")] : Cache)).map Prod.fst) := by
  refine ⟨by decide, by decide, ?_⟩
  exact cache_set_in_place_amended MAX_CACHE_SIZE "a" "3" [("a", "1"), ("b", "2")]
    (by decide) (by decide)

/-! ## Protocol Adapter theorems -/

theorem chars_append (a b : String) : chars (a ++ b) = chars a ++ chars b :=
  String.data_append a b

theorem isPrefixOf_self_append (a b : List Char) :
    a.isPrefixOf (a ++ b) = true := by
  induction a with
  | nil => simp [List.isPrefixOf]
  | cons x xs ih => simp [List.isPrefixOf, ih]

theorem isPrefixOf_append_cancel (a b c : List Char) :
    (a ++ b).isPrefixOf (a ++ c) = b.isPrefixOf c := by
  induction a with
  | nil => simp [List.isPrefixOf]
  | cons x xs ih => simp [List.isPrefixOf, ih]

/-- Claim C6 counterexample: for the response content
(backtick fence)`yaml` + newline + `(JSON object with translation "hi")` +
newline + (backtick fence), the claim says the leading delimiter with its
language tag is stripped and JSON parsing then yields `hi`
(`specContentResult` renders the claim); the code strips only the
backticks, leaves `yaml` in the content, fails to parse, and returns the
tag-bearing raw string. -/
theorem adapter_fence_tag_counterexample :
    contentResult (chars "```yaml\n\x7b\"translation\":\"hi\"\x7d\n```") =
      Json.str "yaml\n\x7b\"translation\":\"hi\"\x7d" ∧
    specContentResult (chars "```yaml\n\x7b\"translation\":\"hi\"\x7d\n```") =
      Json.str "hi" ∧
    ("yaml\n\x7b\"translation\":\"hi\"\x7d" : String) ≠ "hi" :=
  ⟨rfl, rfl, by decide⟩

/-- Claim C6 amended: the adapter strips the seven leading characters of a
json-tagged fence opener whenever the content starts with them — also when
they are a proper prefix of a longer tag such as `jsonc`, whose remaining
letters stay in the content — and otherwise strips a bare fence opener,
leaving the text of any other language tag (such as `yaml`) in the
content; a trailing fence is stripped in both cases.  It then attempts
JSON parsing, returns the `translation` field when parsing succeeds and
the field is truthy, and in every other case — parse failure, absent
field, falsy field — returns the raw fence-stripped string verbatim as a
successful result; a non-JSON response is never an error. -/
theorem adapter_normalization_amended :
    (∀ l : List Char,
       stripFences (jsonFence ++ l) = stripTrailingFence (l.dropWhile jsWsChar)) ∧
    (∀ l : List Char, ¬ (List.isPrefixOf [ 'j', 's', 'o', 'n' ] l = true) →
       stripFences (fence ++ l) = stripTrailingFence (l.dropWhile jsWsChar)) ∧
    (∀ content : List Char, jsonParse (stripFences content) = none →
       contentResult content = Json.str (ofChars (stripFences content))) ∧
    (∀ (content : List Char) (j : Json), jsonParse (stripFences content) = some j →
       jGet j "translation" = none →
       contentResult content = Json.str (ofChars (stripFences content))) ∧
    (∀ (content : List Char) (j v : Json), jsonParse (stripFences content) = some j →
       jGet j "translation" = some v → jsTruthy v = true →
       contentResult content = v) ∧
    (∀ (resp : ApiResponse) (raw : String), respOk resp.status = true →
       resp.choices.head?.bind id = some raw → jsTrim (chars raw) ≠ [] →
       translate resp = Except.ok (contentResult (jsTrim (chars raw)))) ∧
    contentResult (chars "```json\n\x7b\"translation\":\"안녕\"\x7d\n```") =
      Json.str "안녕" ∧
    contentResult (chars "그냥 텍스트") = Json.str "그냥 텍스트" ∧
    contentResult (chars "```jsonc\n\x7b\"translation\":\"hi\"\x7d\n```") =
      Json.str "c\n\x7b\"translation\":\"hi\"\x7d" := by
  refine ⟨?tagJson, ?bare, ?pfail, ?pnone, ?ptruthy, ?noerr, rfl, rfl, rfl⟩
  · intro l
    unfold stripFences
    rw [if_pos (isPrefixOf_self_append jsonFence l)]
    have h7 : (jsonFence ++ l).drop 7 = l := by
      have : jsonFence.length = 7 := rfl
      rw [← this, List.drop_left]
    rw [h7]
  · intro l htag
    unfold stripFences
    rw [if_neg, if_pos (isPrefixOf_self_append fence l)]
    · have h3 : (fence ++ l).drop 3 = l := by
        have : fence.length = 3 := rfl
        rw [← this, List.drop_left]
      rw [h3]
    · intro hjson
      apply htag
      rw [show jsonFence = fence ++ [ 'j', 's', 'o', 'n' ] from rfl,
        isPrefixOf_append_cancel] at hjson
      exact hjson
  · intro content h
    unfold contentResult
    rw [h]
  · intro content j h1 h2
    unfold contentResult
    rw [h1]
    show (match jGet j "translation" with
          | some v =>
            if jsTruthy v then v else Json.str (ofChars (stripFences content))
          | none => Json.str (ofChars (stripFences content))) =
      Json.str (ofChars (stripFences content))
    rw [h2]
  · intro content j v h1 h2 h3
    unfold contentResult
    rw [h1]
    show (match jGet j "translation" with
          | some v =>
            if jsTruthy v then v else Json.str (ofChars (stripFences content))
          | none => Json.str (ofChars (stripFences content))) = v
    rw [h2]
    show (if jsTruthy v then v else Json.str (ofChars (stripFences content))) = v
    rw [if_pos h3]
  · intro resp raw hok hraw hne
    unfold translate
    rw [hok]
    show (match (resp.choices.head?.bind id).map (fun s => jsTrim (chars s)) with
          | none => Except.error "Empty response from API"
          | some content =>
            if content = [] then Except.error "Empty response from API"
            else Except.ok (contentResult content)) =
      Except.ok (contentResult (jsTrim (chars raw)))
    rw [hraw]
    show (if jsTrim (chars raw) = [] then Except.error "Empty response from API"
          else Except.ok (contentResult (jsTrim (chars raw)))) =
      Except.ok (contentResult (jsTrim (chars raw)))
    rw [if_neg hne]

/-- Claim C6 amended, witnessed on concrete inputs: the bare-fence conjunct
on a non-json tag body, the parse-failure fallback on plain Korean free
text, the absent-field fallback, the truthy-field extraction, and the
never-an-error conjunct on an ok response carrying free text. -/
theorem adapter_normalization_amended_witness :
    (¬ (List.isPrefixOf [ 'j', 's', 'o', 'n' ] (chars "text\n") = true)) ∧
    stripFences (fence ++ chars "text\n") =
      stripTrailingFence ((chars "text\n").dropWhile jsWsChar) ∧
    jsonParse (stripFences (chars "그냥 텍스트")) = none ∧
    contentResult (chars "그냥 텍스트") =
      Json.str (ofChars (stripFences (chars "그냥 텍스트"))) ∧
    jsonParse (stripFences (chars "\x7b\"k\":1\x7d")) =
      some (Json.obj [("k", Json.num "1")]) ∧
    contentResult (chars "\x7b\"k\":1\x7d") =
      Json.str (ofChars (stripFences (chars "\x7b\"k\":1\x7d"))) ∧
    jsonParse (stripFences (chars "\x7b\"translation\":\"안녕\"\x7d")) =
      some (Json.obj [("translation", Json.str "안녕")]) ∧
    contentResult (chars "\x7b\"translation\":\"안녕\"\x7d") = Json.str "안녕" ∧
    translate ⟨200, "OK", [some " 그냥 텍스트 "]⟩ =
      Except.ok (contentResult (jsTrim (chars " 그냥 텍스트 "))) := by
  refine ⟨by decide, ?_, rfl, ?_, rfl, ?_, rfl, ?_, ?_⟩
  · exact adapter_normalization_amended.2.1 (chars "text\n") (by decide)
  · exact adapter_normalization_amended.2.2.1 (chars "그냥 텍스트") rfl
  · exact adapter_normalization_amended.2.2.2.1 (chars "\x7b\"k\":1\x7d")
      (Json.obj [("k", Json.num "1")]) rfl rfl
  · exact adapter_normalization_amended.2.2.2.2.1
      (chars "\x7b\"translation\":\"안녕\"\x7d")
      (Json.obj [("translation", Json.str "안녕")]) (Json.str "안녕") rfl rfl rfl
  · exact adapter_normalization_amended.2.2.2.2.2.1 ⟨200, "OK", [some " 그냥 텍스트 "]⟩
      " 그냥 텍스트 " rfl rfl (by decide)

/-- Claim C7: a non-success HTTP status makes `translate` fail with the
transport error carrying the status code and status text, the status code
appearing verbatim inside the message, and no translated result is
produced. -/
theorem transport_error_on_http_failure (resp : ApiResponse)
    (h : respOk resp.status = false) :
    translate resp =
      Except.error ("API " ++ toString resp.status ++ ": " ++ resp.statusText) ∧
    (∀ j : Json, translate resp ≠ Except.ok j) ∧
    (∃ pre post : List Char,
       pre ++ chars (toString resp.status) ++ post =
         chars ("API " ++ toString resp.status ++ ": " ++ resp.statusText)) := by
  have he : translate resp =
      Except.error ("API " ++ toString resp.status ++ ": " ++ resp.statusText) := by
    unfold translate
    rw [h]
    simp
  refine ⟨he, ?_, ?_⟩
  · intro j hj
    rw [he] at hj
    exact Except.noConfusion hj
  · exact ⟨chars "API ", chars ": " ++ chars resp.statusText,
      by simp [chars_append, List.append_assoc]⟩

/-- Claim C7, witnessed at an HTTP 500 response. -/
theorem transport_error_on_http_failure_witness :
    respOk 500 = false ∧
    translate ⟨500, "Internal Server Error", []⟩ =
      Except.error "API 500: Internal Server Error" ∧
    (∀ j : Json, translate ⟨500, "Internal Server Error", []⟩ ≠ Except.ok j) := by
  have h := transport_error_on_http_failure ⟨500, "Internal Server Error", []⟩
    (by decide)
  exact ⟨by decide, h.1, h.2.1⟩

/-- Claim C10: content that parses as JSON whose `translation` field is
falsy — the empty string or any other falsy value — makes `translate`
return the raw fence-stripped content rather than the field value, because
line 92 of client.ts tests the field for truthiness, not presence. -/
theorem falsy_translation_field_returns_raw (content : List Char) (j v : Json)
    (h1 : jsonParse (stripFences content) = some j)
    (h2 : jGet j "translation" = some v)
    (h3 : jsTruthy v = false) :
    contentResult content = Json.str (ofChars (stripFences content)) := by
  unfold contentResult
  rw [h1]
  show (match jGet j "translation" with
        | some v =>
          if jsTruthy v then v else Json.str (ofChars (stripFences content))
        | none => Json.str (ofChars (stripFences content))) =
    Json.str (ofChars (stripFences content))
  rw [h2]
  show (if jsTruthy v then v else Json.str (ofChars (stripFences content))) =
    Json.str (ofChars (stripFences content))
  rw [if_neg (by simp [h3])]

/-- Claim C10, witnessed at content that is a JSON object whose
`translation` field is the empty string. -/
theorem falsy_translation_field_returns_raw_witness :
    jsonParse (stripFences (chars "\x7b\"translation\":\"\"\x7d")) =
      some (Json.obj [("translation", Json.str "")]) ∧
    jGet (Json.obj [("translation", Json.str "")]) "translation" =
      some (Json.str "") ∧
    jsTruthy (Json.str "") = false ∧
    contentResult (chars "\x7b\"translation\":\"\"\x7d") =
      Json.str "\x7b\"translation\":\"\"\x7d" := by
  refine ⟨rfl, rfl, rfl, ?_⟩
  exact falsy_translation_field_returns_raw (chars "\x7b\"translation\":\"\"\x7d")
    (Json.obj [("translation", Json.str "")]) (Json.str "") rfl rfl rfl

/-! ## Background handler theorems -/

theorem cacheGet_miss (k : String) (c : Cache) (h : c.lookup k = none) :
    cacheGet k c = (none, c) := by
  unfold cacheGet
  rw [h]

theorem cacheGet_hit (k v : String) (c : Cache) (h : c.lookup k = some v) :
    cacheGet k c = (some v, mapSet k v (mapDelete k c)) := by
  unfold cacheGet
  rw [h]

/-- Claim C5: when the first submission of (text, target language) reaches
the adapter and the adapter returns X, the second submission of the same
pair resolves from the cache with cached:true carrying X, without invoking
the adapter — whatever the detection outcome and whatever the adapter
would have produced the second time (the cache check precedes any network
call). -/
theorem cached_idempotent_submission
    (settings : TranslatorSettings) (text X : String)
    (d1 d2 : Option LanguageDetectionResult) (a2 : AdapterBehavior)
    (cache : Cache) (hen : settings.enabled = true)
    (hfirst :
      (handleTranslate settings text d1 (AdapterBehavior.ok X) cache).adapterCalled =
        true) :
    (handleTranslate settings text d2 a2
        (handleTranslate settings text d1 (AdapterBehavior.ok X) cache).cache).response =
      { success := true, result := some X, error := none, cached := some true,
        skipped := none } ∧
    (handleTranslate settings text d2 a2
        (handleTranslate settings text d1 (AdapterBehavior.ok X) cache).cache).adapterCalled =
      false := by
  rcases hl : cache.lookup (settings.targetLang ++ "::" ++ text) with _ | v
  · rcases hs : skipDetected settings d1 with _ | _
    · have hc1 :
          (handleTranslate settings text d1 (AdapterBehavior.ok X) cache).cache =
            cacheSet (settings.targetLang ++ "::" ++ text) X cache := by
        simp [handleTranslate, hen, cacheGet_miss _ _ hl, hs]
      have hl2 :
          (cacheSet (settings.targetLang ++ "::" ++ text) X cache).lookup
              (settings.targetLang ++ "::" ++ text) = some X :=
        lookup_cacheSetCap_self _ _ _ _
      rw [hc1]
      constructor
      · simp [handleTranslate, hen, cacheGet_hit _ _ _ hl2]
      · simp [handleTranslate, hen, cacheGet_hit _ _ _ hl2]
    · exfalso
      have : (handleTranslate settings text d1 (AdapterBehavior.ok X) cache).adapterCalled =
          false := by
        simp [handleTranslate, hen, cacheGet_miss _ _ hl, hs]
      rw [this] at hfirst
      exact Bool.noConfusion hfirst
  · exfalso
    have : (handleTranslate settings text d1 (AdapterBehavior.ok X) cache).adapterCalled =
        false := by
      simp [handleTranslate, hen, cacheGet_hit _ _ _ hl]
    rw [this] at hfirst
    exact Bool.noConfusion hfirst

/-- Claim C5, witnessed: target language Korean, text `hello`, detection
absent on both submissions, adapter answering `안녕` on the first submission
and poised to fail on the second — which is never consulted. -/
theorem cached_idempotent_submission_witness :
    ((⟨"http://localhost:18181", "m", "", "Auto", "Korean", true, 3⟩ :
        TranslatorSettings)).enabled = true ∧
    (handleTranslate ⟨"http://localhost:18181", "m", "", "Auto", "Korean", true, 3⟩
        "hello" none (AdapterBehavior.ok "안녕") []).adapterCalled = true ∧
    ((handleTranslate ⟨"http://localhost:18181", "m", "", "Auto", "Korean", true, 3⟩
        "hello" none (AdapterBehavior.err "server down")
        (handleTranslate ⟨"http://localhost:18181", "m", "", "Auto", "Korean", true, 3⟩
          "hello" none (AdapterBehavior.ok "안녕") []).cache).response =
      { success := true, result := some "안녕", error := none, cached := some true,
        skipped := none } ∧
     (handleTranslate ⟨"http://localhost:18181", "m", "", "Auto", "Korean", true, 3⟩
        "hello" none (AdapterBehavior.err "server down")
        (handleTranslate ⟨"http://localhost:18181", "m", "", "Auto", "Korean", true, 3⟩
          "hello" none (AdapterBehavior.ok "안녕") []).cache).adapterCalled = false) := by
  refine ⟨rfl, by decide, ?_⟩
  exact cached_idempotent_submission
    ⟨"http://localhost:18181", "m", "", "Auto", "Korean", true, 3⟩ "hello" "안녕"
    none none (AdapterBehavior.err "server down") [] rfl (by decide)

/-- Claim C8: on a submission whose text is not cached, with a known
target language whose code the detection reliably reports as the dominant
language, the handler resolves with skipped:true and the original text,
stores the original text as its own translation under the
targetLanguage::text key, and never invokes the adapter. -/
theorem skip_path_caches_original (settings : TranslatorSettings) (text : String)
    (d : LanguageDetectionResult) (rest : List String)
    (adapter : AdapterBehavior) (cache : Cache)
    (hen : settings.enabled = true)
    (hmiss : cache.lookup (settings.targetLang ++ "::" ++ text) = none)
    (hcode : getCodeForLangName settings.targetLang ≠ "")
    (hrel : d.isReliable = true)
    (hlang : d.languages = getCodeForLangName settings.targetLang :: rest) :
    handleTranslate settings text (some d) adapter cache =
      ⟨{ success := true, result := some text, error := none,
         cached := some false, skipped := some true },
       cacheSet (settings.targetLang ++ "::" ++ text) text cache, false⟩ ∧
    (cacheSet (settings.targetLang ++ "::" ++ text) text cache).lookup
        (settings.targetLang ++ "::" ++ text) = some text := by
  have hskip : skipDetected settings (some d) = true := by
    unfold skipDetected
    rw [if_neg hcode]
    show (match d.languages with
          | topLang :: _ =>
            d.isReliable &&
              (topLang = getCodeForLangName settings.targetLang ||
                (chars (getCodeForLangName settings.targetLang)).isPrefixOf
                  (chars topLang))
          | [] => false) = true
    rw [hlang]
    simp [hrel]
  constructor
  · simp [handleTranslate, hen, cacheGet_miss _ _ hmiss, hskip]
  · exact lookup_cacheSetCap_self _ _ _ _

/-- Claim C8, witnessed: target language Korean (code `ko`), uncached text
`하이`, reliable detection reporting `ko` dominant, adapter poised to fail —
and never consulted. -/
theorem skip_path_caches_original_witness :
    (([] : Cache)).lookup ("Korean" ++ "::" ++ "하이") = none ∧
    getCodeForLangName "Korean" ≠ "" ∧
    (handleTranslate ⟨"http://localhost:18181", "m", "", "Auto", "Korean", true, 3⟩
        "하이" (some ⟨true, ["ko"]⟩) (AdapterBehavior.err "never") [] =
      ⟨{ success := true, result := some "하이", error := none,
         cached := some false, skipped := some true },
       cacheSet ("Korean" ++ "::" ++ "하이") "하이" [], false⟩ ∧
     (cacheSet ("Korean" ++ "::" ++ "하이") "하이" []).lookup
        ("Korean" ++ "::" ++ "하이") = some "하이") := by
  refine ⟨by decide, by decide, ?_⟩
  exact skip_path_caches_original
    ⟨"http://localhost:18181", "m", "", "Auto", "Korean", true, 3⟩ "하이"
    ⟨true, ["ko"]⟩ [] (AdapterBehavior.err "never") [] rfl (by decide)
    (by decide) rfl rfl

/-! ## Coordinator lemmas -/

theorem drainLoop_currentMax : ∀ (fuel : Nat) (s : CoordState),
    (drainLoop fuel s).currentMaxConcurrent = s.currentMaxConcurrent := by
  intro fuel
  induction fuel with
  | zero => intro s; rfl
  | succ fuel ih =>
    intro s
    unfold drainLoop
    split
    · rfl
    · split
      · exact ih _
      · rfl

theorem drainLoop_results : ∀ (fuel : Nat) (s : CoordState),
    (drainLoop fuel s).results = s.results := by
  intro fuel
  induction fuel with
  | zero => intro s; rfl
  | succ fuel ih =>
    intro s
    unfold drainLoop
    split
    · rfl
    · split
      · exact ih _
      · rfl

theorem drainLoop_le : ∀ (fuel : Nat) (s : CoordState),
    s.inFlightCount ≤ s.currentMaxConcurrent →
    (drainLoop fuel s).inFlightCount ≤ s.currentMaxConcurrent := by
  intro fuel
  induction fuel with
  | zero => intro s h; exact h
  | succ fuel ih =>
    intro s h
    unfold drainLoop
    split
    · exact h
    · rename_i j rest hq
      split
      · rename_i hlt
        exact ih _ (by simpa using hlt)
      · exact h

theorem drainLoop_count : ∀ (fuel : Nat) (s : CoordState),
    (drainLoop fuel s).inFlightCount - ((drainLoop fuel s).dispatched.length : Int) =
      s.inFlightCount - (s.dispatched.length : Int) := by
  intro fuel
  induction fuel with
  | zero => intro s; rfl
  | succ fuel ih =>
    intro s
    unfold drainLoop
    split
    · rfl
    · split
      · refine (ih _).trans ?_
        simp only [List.length_append, List.length_cons, List.length_nil]
        push_cast
        ring
      · rfl

theorem drainLoop_dq : ∀ (fuel : Nat) (s : CoordState),
    (drainLoop fuel s).dispatched ++ (drainLoop fuel s).translationQueue =
      s.dispatched ++ s.translationQueue := by
  intro fuel
  induction fuel with
  | zero => intro s; rfl
  | succ fuel ih =>
    intro s
    unfold drainLoop
    split
    · rfl
    · rename_i j rest hq
      split
      · refine (ih _).trans ?_
        rw [hq]
        simp [List.append_assoc]
      · rfl

theorem drainLoop_queue_mem : ∀ (fuel : Nat) (s : CoordState) (x : Nat),
    x ∈ (drainLoop fuel s).translationQueue → x ∈ s.translationQueue := by
  intro fuel
  induction fuel with
  | zero => intro s x h; exact h
  | succ fuel ih =>
    intro s x h
    revert h
    unfold drainLoop
    split
    · exact id
    · rename_i j rest hq
      split
      · intro h
        rw [hq]
        exact List.mem_cons_of_mem j (ih _ x h)
      · exact id

theorem drainLoop_dispatched_extends : ∀ (fuel : Nat) (s : CoordState),
    ∃ t, (drainLoop fuel s).dispatched = s.dispatched ++ t := by
  intro fuel
  induction fuel with
  | zero => intro s; exact ⟨[], (List.append_nil s.dispatched).symm⟩
  | succ fuel ih =>
    intro s
    unfold drainLoop
    split
    · exact ⟨[], by simp⟩
    · rename_i j rest hq
      split
      · obtain ⟨t, ht⟩ := ih _
        exact ⟨j :: t, by rw [ht]; simp⟩
      · exact ⟨[], by simp⟩

theorem drainLoop_succ_nil (fuel : Nat) (f m : Int) (dp : List Nat)
    (r : List (Nat × Bool)) :
    drainLoop (fuel + 1) ⟨[], f, m, dp, r⟩ = ⟨[], f, m, dp, r⟩ := rfl

theorem drainLoop_succ_cons (fuel : Nat) (j : Nat) (rest : List Nat) (f m : Int)
    (dp : List Nat) (r : List (Nat × Bool)) :
    drainLoop (fuel + 1) ⟨j :: rest, f, m, dp, r⟩ =
      if f < m then drainLoop fuel ⟨rest, f + 1, m, dp ++ [j], r⟩
      else ⟨j :: rest, f, m, dp, r⟩ := rfl

theorem drainLoop_ignores_results : ∀ (fuel : Nat) (q : List Nat) (f m : Int)
    (dp : List Nat) (r₁ r₂ : List (Nat × Bool)),
    (drainLoop fuel ⟨q, f, m, dp, r₁⟩).translationQueue =
      (drainLoop fuel ⟨q, f, m, dp, r₂⟩).translationQueue ∧
    (drainLoop fuel ⟨q, f, m, dp, r₁⟩).inFlightCount =
      (drainLoop fuel ⟨q, f, m, dp, r₂⟩).inFlightCount ∧
    (drainLoop fuel ⟨q, f, m, dp, r₁⟩).dispatched =
      (drainLoop fuel ⟨q, f, m, dp, r₂⟩).dispatched := by
  intro fuel
  induction fuel with
  | zero => intros; exact ⟨rfl, rfl, rfl⟩
  | succ fuel ih =>
    intro q f m dp r₁ r₂
    rcases q with _ | ⟨j, rest⟩
    · exact ⟨rfl, rfl, rfl⟩
    · rw [drainLoop_succ_cons, drainLoop_succ_cons]
      by_cases h : f < m
      · rw [if_pos h, if_pos h]
        exact ih rest (f + 1) m (dp ++ [j]) r₁ r₂
      · rw [if_neg h, if_neg h]
        exact ⟨rfl, rfl, rfl⟩

theorem qStep_currentMax (s : CoordState) (e : QEvent) :
    (qStep s e).currentMaxConcurrent = s.currentMaxConcurrent := by
  cases e with
  | submit j => exact drainLoop_currentMax _ _
  | finish j b => exact drainLoop_currentMax _ _

theorem runTrace_currentMax : ∀ (es : List QEvent) (s : CoordState),
    (runTrace s es).currentMaxConcurrent = s.currentMaxConcurrent := by
  intro es
  induction es with
  | nil => intro s; rfl
  | cons e es ih =>
    intro s
    exact (ih (qStep s e)).trans (qStep_currentMax s e)

theorem processQueue_inv (s : CoordState) (h : Inv s) : Inv (processQueue s) := by
  obtain ⟨hc, hle, hmax⟩ := h
  have hcount := drainLoop_count s.translationQueue.length s
  have hres := drainLoop_results s.translationQueue.length s
  have hbound := drainLoop_le s.translationQueue.length s hmax
  have hmaxeq := drainLoop_currentMax s.translationQueue.length s
  obtain ⟨t, ht⟩ := drainLoop_dispatched_extends s.translationQueue.length s
  unfold processQueue
  refine ⟨?_, ?_, ?_⟩
  · rw [hres]
    omega
  · rw [hres, ht]
    simp only [List.length_append]
    omega
  · rw [hmaxeq]
    exact hbound

theorem validFrom_inv : ∀ (es : List QEvent) (s : CoordState),
    validFrom s es = true → Inv s → Inv (runTrace s es) := by
  intro es
  induction es with
  | nil => intro s _ h; exact h
  | cons e es ih =>
    intro s hv h
    simp only [validFrom, Bool.and_eq_true] at hv
    obtain ⟨hcond, hrest⟩ := hv
    have hstep : Inv (qStep s e) := by
      cases e with
      | submit j =>
        apply processQueue_inv
        exact ⟨h.1, h.2.1, h.2.2⟩
      | finish j b =>
        simp only [Bool.and_eq_true, decide_eq_true_eq] at hcond
        apply processQueue_inv
        obtain ⟨hc, hle, hmax⟩ := h
        refine ⟨?_, ?_, ?_⟩
        · simp only [List.length_append, List.length_cons, List.length_nil]
          push_cast
          omega
        · simp only [List.length_append, List.length_cons, List.length_nil]
          omega
        · simp only []
          omega
    exact ih (qStep s e) hrest hstep

theorem qStep_dq (s : CoordState) (e : QEvent) :
    (qStep s e).dispatched ++ (qStep s e).translationQueue =
      s.dispatched ++ s.translationQueue ++
        (match e with | QEvent.submit j => [j] | QEvent.finish _ _ => []) := by
  cases e with
  | submit j =>
    refine (drainLoop_dq _ _).trans ?_
    simp [List.append_assoc]
  | finish j b =>
    refine (drainLoop_dq _ _).trans ?_
    simp

theorem trace_dq : ∀ (es : List QEvent) (s : CoordState),
    (runTrace s es).dispatched ++ (runTrace s es).translationQueue =
      s.dispatched ++ s.translationQueue ++ submits es := by
  intro es
  induction es with
  | nil => intro s; simp [runTrace, submits]
  | cons e es ih =>
    intro s
    refine (ih (qStep s e)).trans ?_
    rw [qStep_dq s e]
    cases e with
    | submit j => simp [submits, List.append_assoc]
    | finish j b => simp [submits]

theorem instant_state : ∀ (js : List Nat) (d : List Nat) (r : List (Nat × Bool)),
    runTrace ⟨[], 0, 1, d, r⟩ (instantTrace js) =
      ⟨[], 0, 1, d ++ js, r ++ js.map (fun j => (j, true))⟩ := by
  intro js
  induction js with
  | nil => intro d r; simp [instantTrace, runTrace]
  | cons j js ih =>
    intro d r
    show runTrace (qStep (qStep ⟨[], 0, 1, d, r⟩ (QEvent.submit j))
        (QEvent.finish j true)) (instantTrace js) = _
    have h1 : qStep (⟨[], 0, 1, d, r⟩ : CoordState) (QEvent.submit j) =
        ⟨[], 1, 1, d ++ [j], r⟩ := rfl
    have h2 : qStep (⟨[], 1, 1, d ++ [j], r⟩ : CoordState) (QEvent.finish j true) =
        ⟨[], 0, 1, d ++ [j], r ++ [(j, true)]⟩ := rfl
    rw [h1, h2, ih (d ++ [j]) (r ++ [(j, true)])]
    simp [List.append_assoc]

theorem instant_valid : ∀ (js : List Nat) (d : List Nat) (r : List (Nat × Bool)),
    r.length = d.length →
    validFrom ⟨[], 0, 1, d, r⟩ (instantTrace js) = true := by
  intro js
  induction js with
  | nil => intro d r _; rfl
  | cons j js ih =>
    intro d r hlen
    have h1 : qStep (⟨[], 0, 1, d, r⟩ : CoordState) (QEvent.submit j) =
        ⟨[], 1, 1, d ++ [j], r⟩ := rfl
    have h2 : qStep (⟨[], 1, 1, d ++ [j], r⟩ : CoordState) (QEvent.finish j true) =
        ⟨[], 0, 1, d ++ [j], r ++ [(j, true)]⟩ := rfl
    show validFrom _ (QEvent.submit j :: QEvent.finish j true :: instantTrace js) = true
    simp only [validFrom, h1, h2, Bool.and_eq_true, decide_eq_true_eq, Bool.true_and]
    refine ⟨⟨?_, ?_⟩, ?_⟩
    · exact List.mem_append_right d (List.mem_singleton_self j)
    · simp only [List.length_append, List.length_cons, List.length_nil]
      omega
    · exact ih (d ++ [j]) (r ++ [(j, true)]) (by simp [hlen])

/-! ## Coordinator theorems -/

/-- Claim C1: over every valid sequence of submissions and completions
with a fixed nonnegative concurrency limit, the in-flight counter stays
between 0 and the limit; in particular with limit 2 and the five
submissions 1..5 whose tasks never settle, exactly tasks 1 and 2 are
in-flight and 3, 4, 5 remain pending, at every observation point. -/
theorem coordinator_inflight_bounded :
    (∀ (L : Int) (es : List QEvent), 0 ≤ L → validFrom (initState L) es = true →
       0 ≤ (runTrace (initState L) es).inFlightCount ∧
       (runTrace (initState L) es).inFlightCount ≤ L) ∧
    runTrace (initState 2) fiveSubmits =
      ⟨[3, 4, 5], 2, 2, [1, 2], []⟩ ∧
    (∀ k, k < 6 →
       (runTrace (initState 2) (fiveSubmits.take k)).inFlightCount =
         min (k : Int) 2 ∧
       (runTrace (initState 2) (fiveSubmits.take k)).translationQueue.length =
         k - 2) := by
  refine ⟨?inv, by decide, by decide⟩
  intro L es hL hv
  have h0 : Inv (initState L) := by
    refine ⟨by simp [initState], by simp [initState], ?_⟩
    simpa [initState] using hL
  have h := validFrom_inv es (initState L) hv h0
  have hmax : (runTrace (initState L) es).currentMaxConcurrent = L :=
    runTrace_currentMax es (initState L)
  obtain ⟨hc, hle, hm⟩ := h
  constructor
  · omega
  · rw [hmax] at hm
    exact hm

/-- Claim C1, witnessed at limit 2 with the five-submission trace. -/
theorem coordinator_inflight_bounded_witness :
    (0 : Int) ≤ 2 ∧ validFrom (initState 2) fiveSubmits = true ∧
    (0 ≤ (runTrace (initState 2) fiveSubmits).inFlightCount ∧
     (runTrace (initState 2) fiveSubmits).inFlightCount ≤ 2) := by
  refine ⟨by decide, by decide, ?_⟩
  exact coordinator_inflight_bounded.1 2 fiveSubmits (by decide) (by decide)

/-- Claim C2: the dispatch order never deviates from submission order — in
every run the dispatched tasks followed by the still-pending tasks are
exactly the submitted tasks in submission order — and with concurrency
limit 1 and instantaneous adapter resolution the adapter is invoked
exactly in submission order J1, ..., Jn, along a valid trace. -/
theorem fifo_admission :
    (∀ (s : CoordState) (es : List QEvent),
       (runTrace s es).dispatched ++ (runTrace s es).translationQueue =
         s.dispatched ++ s.translationQueue ++ submits es) ∧
    (∀ js : List Nat,
       (runTrace (initState 1) (instantTrace js)).dispatched = js ∧
       validFrom (initState 1) (instantTrace js) = true) := by
  constructor
  · intro s es
    exact trace_dq es s
  · intro js
    constructor
    · show (runTrace ⟨[], 0, 1, [], []⟩ (instantTrace js)).dispatched = js
      rw [instant_state js [] []]
      simp
    · exact instant_valid js [] [] rfl

/-- Claim C9: a task that settles with failure releases its admission slot
exactly as a successful one — the resulting queue, counter and dispatch
record agree with the success case — its failure is delivered as the
recorded resolution, the failed task is not requeued, and when a pending
task exists and the counter is within the limit, the head pending task is
dispatched by the re-drain. -/
theorem failure_releases_slot (s : CoordState) (j : Nat) (b : Bool) :
    ((finishJob j b s).translationQueue = (finishJob j true s).translationQueue ∧
     (finishJob j b s).inFlightCount = (finishJob j true s).inFlightCount ∧
     (finishJob j b s).dispatched = (finishJob j true s).dispatched) ∧
    (finishJob j b s).results = s.results ++ [(j, b)] ∧
    (j ∉ s.translationQueue → j ∉ (finishJob j b s).translationQueue) ∧
    (∀ q0 qrest, s.translationQueue = q0 :: qrest →
       s.inFlightCount ≤ s.currentMaxConcurrent →
       q0 ∈ (finishJob j b s).dispatched) := by
  obtain ⟨q, f, m, dp, r⟩ := s
  refine ⟨?_, ?_, ?_, ?_⟩
  · exact drainLoop_ignores_results q.length q (f - 1) m dp
      (r ++ [(j, b)]) (r ++ [(j, true)])
  · exact drainLoop_results q.length ⟨q, f - 1, m, dp, r ++ [(j, b)]⟩
  · intro hnot hmem
    exact hnot (drainLoop_queue_mem q.length ⟨q, f - 1, m, dp, r ++ [(j, b)]⟩ j hmem)
  · intro q0 qrest hq hle
    subst hq
    have hle2 : f ≤ m := hle
    show q0 ∈ (drainLoop (qrest.length + 1)
        ⟨q0 :: qrest, f - 1, m, dp, r ++ [(j, b)]⟩).dispatched
    rw [drainLoop_succ_cons, if_pos (show f - 1 < m by omega)]
    obtain ⟨t, ht⟩ := drainLoop_dispatched_extends qrest.length
      ⟨qrest, f - 1 + 1, m, dp ++ [q0], r ++ [(j, b)]⟩
    rw [ht]
    simp

/-- Claim C9, witnessed: limit 1, task 1 in flight, task 2 pending; task 1
fails — the slot frees, the failure is recorded, task 1 is not requeued,
and task 2 is dispatched. -/
theorem failure_releases_slot_witness :
    ((finishJob 1 false ⟨[2], 1, 1, [1], []⟩).translationQueue =
       (finishJob 1 true ⟨[2], 1, 1, [1], []⟩).translationQueue ∧
     (finishJob 1 false ⟨[2], 1, 1, [1], []⟩).inFlightCount =
       (finishJob 1 true ⟨[2], 1, 1, [1], []⟩).inFlightCount ∧
     (finishJob 1 false ⟨[2], 1, 1, [1], []⟩).dispatched =
       (finishJob 1 true ⟨[2], 1, 1, [1], []⟩).dispatched) ∧
    (finishJob 1 false ⟨[2], 1, 1, [1], []⟩).results = [] ++ [(1, false)] ∧
    (1 ∉ ([2] : List Nat)) ∧
    1 ∉ (finishJob 1 false ⟨[2], 1, 1, [1], []⟩).translationQueue ∧
    ((1 : Int) ≤ 1) ∧
    2 ∈ (finishJob 1 false ⟨[2], 1, 1, [1], []⟩).dispatched := by
  have h := failure_releases_slot ⟨[2], 1, 1, [1], []⟩ 1 false
  exact ⟨h.1, h.2.1, by decide, h.2.2.1 (by decide), by decide,
    h.2.2.2 2 [] rfl (by decide)⟩

end SoopChat
